import Mathlib

/-!
Verification of the sath33sh/infra real-time messaging core.

Shallow embedding of the Go sources:
  * `push/push.go`, `push/push_topic.go` (topic manager, topic workers,
    session manager, publish paths);
  * `wapi/wapi_websocket.go` (server-side websocket loop, constants);
  * the websocket client (`RestExec`, `readLoop`).

Go maps are embedded as association lists (`lookupA` / `insertA` /
`eraseA` / `updateA`); Go channels carrying values are embedded as the
list of values sent on them; goroutine interleavings are embedded as a
step relation on explicit state. All definitions are computable so that
every theorem can be exercised on concrete inputs.
-/

namespace Infra

/-! ## Association-list helpers (embedding of Go maps) -/

/-- Lookup in an association list (Go `m[k]`, first binding wins). -/
def lookupA {α β : Type} [DecidableEq α] : List (α × β) → α → Option β
  | [], _ => none
  | (k, v) :: rest, a => if k = a then some v else lookupA rest a

/-- Remove every binding of a key (Go `delete(m, k)`). -/
def eraseA {α β : Type} [DecidableEq α] : List (α × β) → α → List (α × β)
  | [], _ => []
  | (k, v) :: rest, a =>
    if k = a then eraseA rest a else (k, v) :: eraseA rest a

/-- Insert or replace a binding (Go `m[k] = v`). -/
def insertA {α β : Type} [DecidableEq α] (l : List (α × β)) (a : α) (v : β) : List (α × β) :=
  (a, v) :: eraseA l a

/-- Update the value bound to a key in place, if present (Go read-modify-write
of an existing map entry); a no-op when the key is absent. -/
def updateA {α β : Type} [DecidableEq α] : List (α × β) → α → (β → β) → List (α × β)
  | [], _, _ => []
  | (k, v) :: rest, a, f =>
    if k = a then (k, f v) :: updateA rest a f else (k, v) :: updateA rest a f

/-! ## Error codes (`util/type.go`) -/

/-- `util.Err`, the error enumeration of `util/type.go`. -/
inductive Err where
  | ErrInvalidInput
  | ErrInvalidToken
  | ErrInvalidMethod
  | ErrInvalidSession
  | ErrInvalidOp
  | ErrInvalidPerm
  | ErrJsonDecode
  | ErrXmlDecode
  | ErrNotFound
  | ErrInternal
  | ErrFileAccess
  | ErrNetAccess
  | ErrDbAccess
  | ErrInvalidObject
  | ErrTimeout
  | ErrResourceLimit
  | ErrRateLimit
deriving DecidableEq, Repr

/-! ## Push data model (`push/push.go`) -/

/-- `push.Payload`: kind, op, topic URI and opaque data
(`json.RawMessage` embedded as a string). -/
structure Payload where
  kind : String
  op : String
  uri : String
  data : String
deriving DecidableEq, Repr

/-- `push.Pushable`: the one conversion contract `BuildPushPayload()
(*Payload, error)`, embedded as its result. -/
structure Pushable where
  buildPushPayload : Except Err Payload

/-! ## Session registry (`push/push_topic.go`, session manager half) -/

/-- `push.SessionKey`. -/
abbrev SessionKey := String

/-- `SessionKey(userId + ":" + sessionId)`, the key derivation used by
`sessionMgrLoop`, `lookupSession` and `Topic.Loop`. -/
def sessionKeyOf (userId sessionId : String) : SessionKey :=
  userId ++ ":" ++ sessionId

/-- `push.Session`. The payload duct (a Go channel pointer) is embedded as a
channel identifier; the channel contents live in a separate `ChanStore`. -/
structure Session where
  payloadDuct : Nat
  msgsSent : Nat
deriving DecidableEq, Repr

/-- `sessions.users : map[string]map[SessionKey]*Session`. -/
abbrev Users := List (String × List (SessionKey × Session))

/-- The ONLINE branch of `sessionMgrLoop`: create the user entry if absent,
then add or replace the session under its key. -/
def applyOnline (users : Users) (userId sessionId : String) (duct : Nat) : Users :=
  let skey := sessionKeyOf userId sessionId
  let umap := (lookupA users userId).getD []
  insertA users userId (insertA umap skey ⟨duct, 0⟩)

/-- The OFFLINE branch of `sessionMgrLoop`: delete the session only if the
recorded duct pointer matches the one carried by the command, then delete
the user entry if it became empty. -/
def applyOffline (users : Users) (userId sessionId : String) (duct : Nat) : Users :=
  let skey := sessionKeyOf userId sessionId
  match lookupA users userId with
  | none => users
  | some umap =>
    let umap' :=
      match lookupA umap skey with
      | some es => if duct = es.payloadDuct then eraseA umap skey else umap
      | none => umap
    if umap'.length = 0 then eraseA users userId
    else insertA users userId umap'

/-- Two-level lookup `sessions.users[userId][skey]`. -/
def lookupUserSession (users : Users) (userId : String) (skey : SessionKey) :
    Option Session :=
  match lookupA users userId with
  | none => none
  | some umap => lookupA umap skey

/-- `push.lookupSession`. -/
def lookupSession (users : Users) (userId sessionId : String) : Option Session :=
  lookupUserSession users userId (sessionKeyOf userId sessionId)

/-! ## Channel store and `PushToUser` -/

/-- Contents of payload ducts, indexed by channel identifier: the list of
payloads sent on each channel, in send order. -/
abbrev ChanStore := List (Nat × List Payload)

/-- All payloads sent so far on a channel. -/
def chanLog (cs : ChanStore) (cid : Nat) : List Payload :=
  (lookupA cs cid).getD []

/-- `s.payloadDuct <- p`: append one payload to a channel's log. -/
def sendChan (cs : ChanStore) (cid : Nat) (p : Payload) : ChanStore :=
  insertA cs cid (chanLog cs cid ++ [p])

/-- The fan-out loop of `PushToUser`: send the payload on every session's
payload duct. -/
def sendAll (cs : ChanStore) (umap : List (SessionKey × Session)) (p : Payload) :
    ChanStore :=
  umap.foldl (fun cs ks => sendChan cs ks.2.payloadDuct p) cs

/-- Combined session-registry and channel state. -/
structure PushState where
  users : Users
  chans : ChanStore
deriving DecidableEq

/-- `push.PushToUser`: under the read lock, if the user has at least one
session, build the payload and send it on every session's duct; the error
result is the build error when building was attempted and failed, else nil. -/
def PushToUser (st : PushState) (userId : String) (obj : Pushable) :
    PushState × Option Err :=
  let umap := (lookupA st.users userId).getD []
  if 0 < umap.length then
    match obj.buildPushPayload with
    | .ok p => ({ st with chans := sendAll st.chans umap p }, none)
    | .error e => (st, some e)
  else (st, none)

/-- N sequential `PushToUser` calls for the same user. -/
def pushSeq (st : PushState) (userId : String) (objs : List Pushable) : PushState :=
  objs.foldl (fun st obj => (PushToUser st userId obj).1) st

/-! ## Topic registry and topic workers (`push/push_topic.go`) -/

/-- `push.TopicCmdType`. -/
inductive TopicCmdType where
  | SUBSCRIBE
  | UNSUBSCRIBE
  | CLEAR
  | STOP
deriving DecidableEq, Repr

/-- `push.TopicCmd` (the `signalDone`/`wg` completion fields carry no
state observable here). -/
structure TopicCmd where
  cmd : TopicCmdType
  uri : String
  userId : String
  sessionId : String
deriving DecidableEq, Repr

/-- `push.Topic`. The worker goroutine's identity (the Go `*Topic` pointer)
is embedded as `tid`; `payloadDuct`/`cmdDuct` are the channels' pending
contents. -/
structure Topic where
  tid : Nat
  subscribers : List (SessionKey × Session)
  payloadDuct : List Payload
  cmdDuct : List TopicCmd
deriving DecidableEq, Repr

/-- The global `topics` struct of the topic manager, plus the bookkeeping
needed to reason about worker lifecycle: `stopSent` records the identities
of workers that have been sent a STOP command, and `nextId` generates fresh
worker identities. -/
structure TopicsState where
  topics : List (String × Topic)
  subscriptions : List (SessionKey × List String)
  stopSent : List Nat
  nextId : Nat
deriving DecidableEq, Repr

/-- Initial state established by `startTopicMgr`. -/
def initTopics : TopicsState :=
  { topics := [], subscriptions := [], stopSent := [], nextId := 0 }

/-- The command branch of `Topic.Loop`: SUBSCRIBE resolves the session via
the Session Registry and adds it (dropped and logged when the lookup
fails); UNSUBSCRIBE and CLEAR delete the key; STOP closes the channels and
terminates the goroutine (no state observable here beyond termination). -/
def applyWorkerCmd (users : Users) (t : Topic) (tc : TopicCmd) : Topic :=
  let skey := sessionKeyOf tc.userId tc.sessionId
  match tc.cmd with
  | .SUBSCRIBE =>
    match lookupSession users tc.userId tc.sessionId with
    | some s => { t with subscribers := insertA t.subscribers skey s }
    | none => t
  | .UNSUBSCRIBE => { t with subscribers := eraseA t.subscribers skey }
  | .CLEAR => { t with subscribers := eraseA t.subscribers skey }
  | .STOP => t

/-- The command branch of `topicMgrLoop`: SUBSCRIBE lazily creates the
worker (fresh identity), forwards the command on the worker's `cmdDuct`
and records the subscription in the index; UNSUBSCRIBE forwards to the
worker if it exists and trims the index, deleting the session's index
entry when its topic set becomes empty; CLEAR forwards the command to
every indexed topic and deletes the index entry outright. STOP is never
sent to the manager (it would hit the logged `default` branch, changing
nothing). -/
def applyTopicMgrCmd (st : TopicsState) (tc : TopicCmd) : TopicsState :=
  let skey := sessionKeyOf tc.userId tc.sessionId
  match tc.cmd with
  | .SUBSCRIBE =>
    let subs := (lookupA st.subscriptions skey).getD []
    let subs' := if tc.uri ∈ subs then subs else tc.uri :: subs
    match lookupA st.topics tc.uri with
    | some _ =>
      { st with
        topics := updateA st.topics tc.uri (fun t => { t with cmdDuct := t.cmdDuct ++ [tc] })
        subscriptions := insertA st.subscriptions skey subs' }
    | none =>
      { st with
        topics := insertA st.topics tc.uri ⟨st.nextId, [], [], [tc]⟩
        subscriptions := insertA st.subscriptions skey subs'
        nextId := st.nextId + 1 }
  | .UNSUBSCRIBE =>
    let topics' := updateA st.topics tc.uri (fun t => { t with cmdDuct := t.cmdDuct ++ [tc] })
    let subscriptions' :=
      match lookupA st.subscriptions skey with
      | some subs =>
        let subs' := subs.filter (fun u => u ≠ tc.uri)
        if subs'.length = 0 then eraseA st.subscriptions skey
        else insertA st.subscriptions skey subs'
      | none => st.subscriptions
    { st with topics := topics', subscriptions := subscriptions' }
  | .CLEAR =>
    let uris := (lookupA st.subscriptions skey).getD []
    let topics' := uris.foldl
      (fun ts uri => updateA ts uri (fun t => { t with cmdDuct := t.cmdDuct ++ [tc] }))
      st.topics
    { st with topics := topics', subscriptions := eraseA st.subscriptions skey }
  | .STOP => st

/-- One scheduling step of a topic worker goroutine: consume the oldest
pending command of the worker at `uri`, resolving sessions against the
session registry state `users` current at that moment. -/
def workerStepF (users : Users) (st : TopicsState) (uri : String) : TopicsState :=
  { st with
    topics := updateA st.topics uri (fun t =>
      match t.cmdDuct with
      | [] => t
      | tc :: rest => applyWorkerCmd users { t with cmdDuct := rest } tc) }

/-- The worker identities sent STOP by one cleanup scan: exactly the
topics observed with an empty subscriber set. -/
def newlyStopped (st : TopicsState) : List Nat :=
  (st.topics.filter (fun ut => ut.2.subscribers.isEmpty)).map (fun ut => ut.2.tid)

/-- The periodic-cleanup branch of `topicMgrLoop`: every topic with no
subscribers is sent a STOP command and deleted from the directory, in the
same scan. -/
def cleanupF (st : TopicsState) : TopicsState :=
  { st with
    topics := st.topics.filter (fun ut => !ut.2.subscribers.isEmpty)
    stopSent := st.stopSent ++ newlyStopped st }

/-- `push.processEgress`: nothing happens unless CAS mode is on; otherwise
the payload is sent on the payload duct of the topic at its URI, if that
topic exists. Always returns nil. -/
def processEgress (casMode : Bool) (st : TopicsState) (p : Payload) : TopicsState :=
  if casMode then
    { st with
      topics := updateA st.topics p.uri (fun t => { t with payloadDuct := t.payloadDuct ++ [p] }) }
  else st

/-- `push.doPublishToBroker`: serialize the payload to the broker keyed by
kind (embedded as appending to the broker's publish log); always nil. -/
def doPublishToBroker (broker : List Payload) (p : Payload) : List Payload :=
  broker ++ [p]

/-- `push.Publish`: build the payload; on build failure return the error;
with the broker disabled, hand off to `processEgress`; otherwise publish to
the broker. Result: topic state, broker publish log, error. -/
def Publish (casMode disableBroker : Bool) (st : TopicsState) (broker : List Payload)
    (obj : Pushable) : TopicsState × List Payload × Option Err :=
  match obj.buildPushPayload with
  | .error e => (st, broker, some e)
  | .ok p =>
    if disableBroker then (processEgress casMode st p, broker, none)
    else (st, doPublishToBroker broker p, none)

/-- Interleaved execution of the topic manager, the topic workers, the
cleanup ticker and the CAS egress path, as observed at the topic manager's
state. `users` in a worker step is the session-registry content at the
moment that worker processes the command. -/
inductive TMStep : TopicsState → TopicsState → Prop where
  | cmd (st : TopicsState) (tc : TopicCmd) : TMStep st (applyTopicMgrCmd st tc)
  | worker (st : TopicsState) (users : Users) (uri : String) :
      TMStep st (workerStepF users st uri)
  | cleanup (st : TopicsState) : TMStep st (cleanupF st)
  | egress (st : TopicsState) (casMode : Bool) (p : Payload) :
      TMStep st (processEgress casMode st p)

/-- States reachable from `startTopicMgr`'s initial state. -/
inductive TMReachable : TopicsState → Prop where
  | init : TMReachable initTopics
  | step {st st' : TopicsState} : TMReachable st → TMStep st st' → TMReachable st'

/-- Well-formedness carried by every reachable topic-manager state:
worker identities are fresh w.r.t. `nextId`, pairwise distinct, directory
keys are unique (Go map), no directory entry has been sent STOP, and the
subscription index never holds an empty topic set. -/
def TMInv (st : TopicsState) : Prop :=
  (∀ p ∈ st.topics, p.2.tid < st.nextId) ∧
  (st.topics.map (fun p => p.2.tid)).Nodup ∧
  (st.topics.map Prod.fst).Nodup ∧
  (∀ i ∈ st.stopSent, i < st.nextId) ∧
  (∀ p ∈ st.topics, p.2.tid ∉ st.stopSent) ∧
  (∀ q ∈ st.subscriptions, q.2 ≠ [])

/-! ## Wire protocol (`wapi/wapi_websocket.go` and the websocket client) -/

/-- `time.Second` in nanoseconds (the unit of Go `time.Duration`). -/
def timeSecond : Int := 1000000000

/-- `wapi.ResponseTimeout = 5 * time.Second` (a `time.Duration`, so a
count of nanoseconds). -/
def ResponseTimeout : Int := 5 * timeSecond

/-- The period `RestExec` arms its response ticker with:
`time.NewTicker(ResponseTimeout * time.Second)`. `time.Duration` is
`int64`; the product is `5e18 ns`, which does not overflow `int64`
(max `≈ 9.22e18`), so this is the exact wait before the timeout fires. -/
def restExecTickerPeriod : Int := ResponseTimeout * timeSecond

/-- `wapi.Envelope`. `data`/`error` are `json.RawMessage`, `nil` embedded
as `none`. -/
structure Envelope where
  rid : String
  timestamp : Int
  method : String
  uri : String
  push : Bool
  data : Option String
  error : Option String
deriving DecidableEq, Repr

/-- Outcome of one `ReadJSON` call in the server's `apiLoop`, together with
the routing result for a successfully decoded envelope: whether
`url.ParseRequestURI` accepts its URI and whether the router has a handler
for (method, path). -/
inductive ApiReadOutcome where
  | eof
  | timeout
  | decodeFailure
  | msg (uriValid : Bool) (handlerFound : Bool)
deriving DecidableEq, Repr

/-- A write the server performs back to the client inside `apiLoop`. -/
inductive ApiWrite where
  | errorEnvelope (e : Err)
  | handlerInvoked
deriving DecidableEq, Repr

/-- One iteration of the server's `apiLoop`: the envelopes (or handler
dispatch) written for this message, and whether the loop keeps reading
(`true`) or breaks and tears the connection down (`false`). -/
def apiLoopStep : ApiReadOutcome → List ApiWrite × Bool
  | .eof => ([], false)
  | .timeout => ([], false)
  | .decodeFailure => ([.errorEnvelope .ErrJsonDecode], false)
  | .msg false _ => ([.errorEnvelope .ErrInvalidMethod], true)
  | .msg true true => ([.handlerInvoked], true)
  | .msg true false => ([.errorEnvelope .ErrInvalidMethod], true)

/-- The server's `apiLoop` run over a sequence of read outcomes: processes
messages until an iteration breaks. -/
def apiLoop : List ApiReadOutcome → List ApiWrite
  | [] => []
  | o :: rest =>
    let (w, cont) := apiLoopStep o
    if cont then w ++ apiLoop rest else w

/-- Result of a `RestExec` call, `nil` embedded as `ok`. -/
inductive RestResult where
  | ok
  | err (e : Err)
deriving DecidableEq, Repr

/-- The response-processing tail of the client's `RestExec`, entered when
the rendezvous channel delivers `resp` with `ok = true`. `respDataWanted`
is whether the caller passed a non-nil `respData` target, and
`dataDecodeOk` whether `json.Unmarshal` of `resp.Data` into it succeeds.
An error response is unmarshalled into the caller's error target (a side
effect) and reported as `ErrInternal` — note this happens before the
`req.Rid != resp.Rid` comparison. -/
def restExecRecv (reqRid : String) (resp : Envelope)
    (respDataWanted dataDecodeOk : Bool) : RestResult :=
  if resp.method.length = 0 then .err .ErrNetAccess
  else if resp.error.isSome then .err .ErrInternal
  else if reqRid ≠ resp.rid then .err .ErrNotFound
  else if respDataWanted then
    if dataDecodeOk then .ok else .err .ErrJsonDecode
  else .ok

/-! ## Association-list lemmas -/

theorem lookupA_insertA_self {α β : Type} [DecidableEq α] (l : List (α × β)) (a : α) (v : β) :
    lookupA (insertA l a v) a = some v := by
  simp [insertA, lookupA]

theorem lookupA_eraseA {α β : Type} [DecidableEq α] (l : List (α × β)) (a b : α) :
    lookupA (eraseA l a) b = if a = b then none else lookupA l b := by
  induction l with
  | nil => simp [eraseA, lookupA]
  | cons p rest ih =>
    obtain ⟨k, v⟩ := p
    by_cases hka : k = a
    · subst hka
      by_cases hkb : k = b
      · subst hkb
        simp [eraseA, lookupA, ih]
      · simp [eraseA, lookupA, hkb, ih]
    · by_cases hkb : k = b
      · subst hkb
        have hab : ¬ a = k := fun h => hka h.symm
        simp [eraseA, lookupA, hka, hab]
      · simp [eraseA, lookupA, hka, hkb, ih]

theorem lookupA_eraseA_self {α β : Type} [DecidableEq α] (l : List (α × β)) (a : α) :
    lookupA (eraseA l a) a = none := by
  simp [lookupA_eraseA]

theorem lookupA_insertA_ne {α β : Type} [DecidableEq α] (l : List (α × β)) (a b : α) (v : β)
    (h : a ≠ b) : lookupA (insertA l a v) b = lookupA l b := by
  simp [insertA, lookupA, h, lookupA_eraseA]

theorem lookupA_updateA {α β : Type} [DecidableEq α] (l : List (α × β)) (a b : α) (f : β → β) :
    lookupA (updateA l a f) b =
      if a = b then (lookupA l b).map f else lookupA l b := by
  induction l with
  | nil => simp [updateA, lookupA]
  | cons p rest ih =>
    obtain ⟨k, v⟩ := p
    by_cases hka : k = a
    · subst hka
      by_cases hkb : k = b
      · subst hkb
        simp [updateA, lookupA]
      · simp [updateA, lookupA, hkb, ih]
    · by_cases hkb : k = b
      · subst hkb
        have hab : ¬ a = k := fun h => hka h.symm
        simp [updateA, lookupA, hka, hab]
      · simp [updateA, lookupA, hka, hkb, ih]

theorem mem_eraseA {α β : Type} [DecidableEq α] {l : List (α × β)} {a : α}
    {p : α × β} (h : p ∈ eraseA l a) : p ∈ l := by
  induction l with
  | nil => simp [eraseA] at h
  | cons q rest ih =>
    obtain ⟨k, v⟩ := q
    by_cases hka : k = a
    · simp only [eraseA, if_pos hka] at h
      exact List.mem_cons_of_mem _ (ih h)
    · simp only [eraseA, if_neg hka] at h
      rcases List.mem_cons.mp h with h | h
      · exact h ▸ List.mem_cons_self _ _
      · exact List.mem_cons_of_mem _ (ih h)

theorem mem_insertA {α β : Type} [DecidableEq α] {l : List (α × β)} {a : α} {v : β}
    {p : α × β} (h : p ∈ insertA l a v) : p = (a, v) ∨ p ∈ l := by
  rcases List.mem_cons.mp h with h | h
  · exact Or.inl h
  · exact Or.inr (mem_eraseA h)

theorem lookupA_some_ne_nil {α β : Type} [DecidableEq α] {l : List (α × β)} {a : α} {v : β}
    (h : lookupA l a = some v) : l.length ≠ 0 := by
  cases l with
  | nil => simp [lookupA] at h
  | cons p rest => simp

theorem updateA_of_lookupA_none {α β : Type} [DecidableEq α] {l : List (α × β)} {a : α}
    (f : β → β) (h : lookupA l a = none) : updateA l a f = l := by
  induction l with
  | nil => rfl
  | cons p rest ih =>
    obtain ⟨k, v⟩ := p
    by_cases hka : k = a
    · simp [lookupA, hka] at h
    · simp only [lookupA, if_neg hka] at h
      simp [updateA, hka, ih h]

/-! ## Channel-store lemmas -/

theorem chanLog_sendChan_self (cs : ChanStore) (cid : Nat) (p : Payload) :
    chanLog (sendChan cs cid p) cid = chanLog cs cid ++ [p] := by
  simp [sendChan, chanLog, lookupA_insertA_self]

theorem chanLog_sendChan_ne (cs : ChanStore) (cid cid' : Nat) (p : Payload)
    (h : cid ≠ cid') : chanLog (sendChan cs cid p) cid' = chanLog cs cid' := by
  simp [sendChan, chanLog, lookupA_insertA_ne _ _ _ _ h]

theorem chanLog_sendAll_not_mem (cs : ChanStore) (umap : List (SessionKey × Session))
    (p : Payload) (cid : Nat) (h : cid ∉ umap.map (fun ks => ks.2.payloadDuct)) :
    chanLog (sendAll cs umap p) cid = chanLog cs cid := by
  induction umap generalizing cs with
  | nil => simp [sendAll]
  | cons ks rest ih =>
    simp only [List.map_cons, List.mem_cons, not_or] at h
    have step : chanLog (sendChan cs ks.2.payloadDuct p) cid = chanLog cs cid :=
      chanLog_sendChan_ne _ _ _ _ (fun he => h.1 he.symm)
    simpa [sendAll] using (ih (sendChan cs ks.2.payloadDuct p) h.2).trans step

theorem chanLog_sendAll_mem (cs : ChanStore) (umap : List (SessionKey × Session))
    (p : Payload) (k : SessionKey) (s : Session)
    (hnd : (umap.map (fun ks => ks.2.payloadDuct)).Nodup)
    (hmem : (k, s) ∈ umap) :
    chanLog (sendAll cs umap p) s.payloadDuct = chanLog cs s.payloadDuct ++ [p] := by
  induction umap generalizing cs with
  | nil => simp at hmem
  | cons ks rest ih =>
    simp only [List.map_cons, List.nodup_cons] at hnd
    rcases List.mem_cons.mp hmem with h | h
    · subst h
      have : s.payloadDuct ∉ rest.map (fun ks => ks.2.payloadDuct) := by
        simpa using hnd.1
      calc chanLog (sendAll (sendChan cs s.payloadDuct p) rest p) s.payloadDuct
          = chanLog (sendChan cs s.payloadDuct p) s.payloadDuct :=
            chanLog_sendAll_not_mem _ _ _ _ this
        _ = chanLog cs s.payloadDuct ++ [p] := chanLog_sendChan_self _ _ _
    · have hsd : s.payloadDuct ∈ rest.map (fun ks => ks.2.payloadDuct) :=
        List.mem_map.mpr ⟨(k, s), h, rfl⟩
      have hne : ks.2.payloadDuct ≠ s.payloadDuct := by
        intro he
        have : ks.2.payloadDuct ∉ rest.map (fun ks => ks.2.payloadDuct) := by
          simpa using hnd.1
        exact this (he ▸ hsd)
      have := ih (sendChan cs ks.2.payloadDuct p) hnd.2 h
      rw [chanLog_sendChan_ne _ _ _ _ hne] at this
      simpa [sendAll] using this

theorem PushToUser_users (st : PushState) (userId : String) (obj : Pushable) :
    (PushToUser st userId obj).1.users = st.users := by
  unfold PushToUser
  by_cases h : 0 < ((lookupA st.users userId).getD []).length
  · simp only [if_pos h]
    cases obj.buildPushPayload <;> rfl
  · simp [if_neg h]

/-! ## Claim C3 -/

/-- **C3**: processing an OFFLINE command carrying output channel `duct`
removes the Session Registry entry for the user+session's key if and only
if the channel recorded under that key equals `duct`; consequently, after
two rapid `OpenSession` calls for the same user+session, closing the first
channel leaves the second session's registry entry intact. -/
theorem offline_removes_iff_duct_matches (users : Users) (uid sid : String)
    (duct : Nat) (es : Session)
    (h : lookupUserSession users uid (sessionKeyOf uid sid) = some es) :
    (lookupUserSession (applyOffline users uid sid duct) uid (sessionKeyOf uid sid)
      = if duct = es.payloadDuct then none else some es)
    ∧ (∀ d1 d2 : Nat, d1 ≠ d2 →
        lookupUserSession
          (applyOffline (applyOnline (applyOnline users uid sid d1) uid sid d2) uid sid d1)
          uid (sessionKeyOf uid sid) = some ⟨d2, 0⟩) := by
  constructor
  · cases hu : lookupA users uid with
    | none => simp [lookupUserSession, hu] at h
    | some umap =>
      simp only [lookupUserSession, hu] at h
      simp only [applyOffline, hu, h]
      by_cases hd : duct = es.payloadDuct
      · simp only [if_pos hd]
        by_cases hz : eraseA umap (sessionKeyOf uid sid) = []
        · simp [hz, lookupUserSession, lookupA_eraseA_self]
        · simp [hz, lookupUserSession, lookupA_insertA_self, lookupA_eraseA_self]
      · have hnz : umap.length ≠ 0 := lookupA_some_ne_nil h
        have hnil : umap ≠ [] := fun hh => hnz (by simp [hh])
        simp [if_neg hd, hnz, hnil, lookupUserSession, lookupA_insertA_self, h]
  · intro d1 d2 hne
    simp only [applyOnline, lookupA_insertA_self, Option.getD_some]
    have hd : ¬ d1 = (Session.mk d2 0).payloadDuct := by simpa using hne
    simp only [applyOffline, lookupA_insertA_self, if_neg hd]
    simp [insertA, lookupUserSession, lookupA_insertA_self, lookupA]

/-- Witness for C3 at a concrete state: a matching close removes the
entry, and closing the first of two rapid opens keeps the second. -/
theorem offline_removes_iff_duct_matches_witness :
    lookupUserSession (applyOffline [("u1", [("u1:s1", ⟨3, 0⟩)])] "u1" "s1" 3) "u1"
        (sessionKeyOf "u1" "s1") = none
    ∧ lookupUserSession
        (applyOffline (applyOnline (applyOnline [] "u1" "s1" 3) "u1" "s1" 4) "u1" "s1" 3)
        "u1" (sessionKeyOf "u1" "s1") = some ⟨4, 0⟩ := by
  have h := offline_removes_iff_duct_matches [("u1", [("u1:s1", ⟨3, 0⟩)])] "u1" "s1" 3
    ⟨3, 0⟩ (by decide)
  exact ⟨by simpa using h.1, h.2 3 4 (by decide)⟩

/-! ## Claim C4 -/

/-- **C4**: `PushToUser` (a) is a nil-error no-op for a user with no
registered session — in particular no payload is built, since the result
is independent of the object's build outcome; (b) writes exactly one copy
of the built payload into the output channel of every registered session;
(c) N sequential calls for a user with one session put exactly N payloads
on that session's channel, in call order. -/
theorem pushToUser_fanout (st : PushState) (uid : String) (obj : Pushable) :
    ((lookupA st.users uid).getD [] = [] → PushToUser st uid obj = (st, none))
    ∧ (∀ umap p, lookupA st.users uid = some umap →
        obj.buildPushPayload = .ok p →
        (umap.map (fun ks => ks.2.payloadDuct)).Nodup →
        ∀ k s, (k, s) ∈ umap →
          chanLog (PushToUser st uid obj).1.chans s.payloadDuct
            = chanLog st.chans s.payloadDuct ++ [p])
    ∧ (∀ k s, lookupA st.users uid = some [(k, s)] →
        ∀ objs ps, objs.map (fun o => o.buildPushPayload) = ps.map Except.ok →
          chanLog (pushSeq st uid objs).chans s.payloadDuct
            = chanLog st.chans s.payloadDuct ++ ps) := by
  refine ⟨?_, ?_, ?_⟩
  · intro hempty
    simp [PushToUser, hempty]
  · intro umap p hu hb hnd k s hmem
    have hlen : 0 < umap.length := List.length_pos_of_mem hmem
    simp only [PushToUser, hu, Option.getD_some, if_pos hlen, hb]
    exact chanLog_sendAll_mem st.chans umap p k s hnd hmem
  · intro k s hu objs
    induction objs generalizing st with
    | nil =>
      intro ps hps
      cases ps with
      | nil => simp [pushSeq]
      | cons q qs => simp at hps
    | cons o rest ih =>
      intro ps hps
      cases ps with
      | nil => simp at hps
      | cons q qs =>
        simp only [List.map_cons, List.cons.injEq] at hps
        have hst1users : (PushToUser st uid o).1.users = st.users := PushToUser_users st uid o
        have hlen : 0 < ((lookupA st.users uid).getD []).length := by
          rw [hu]; simp
        have h1 : (PushToUser st uid o).1
            = { st with chans := sendAll st.chans [(k, s)] q } := by
          simp [PushToUser, if_pos hlen, hps.1, hu]
        have h2 : chanLog (sendAll st.chans [(k, s)] q) s.payloadDuct
            = chanLog st.chans s.payloadDuct ++ [q] := by
          simpa [sendAll] using chanLog_sendChan_self st.chans s.payloadDuct q
        have hu1 : lookupA (PushToUser st uid o).1.users uid = some [(k, s)] := by
          rw [hst1users]; exact hu
        have := ih (PushToUser st uid o).1 hu1 qs hps.2
        calc chanLog (pushSeq st uid (o :: rest)).chans s.payloadDuct
            = chanLog (pushSeq (PushToUser st uid o).1 uid rest).chans s.payloadDuct := by
              simp [pushSeq]
          _ = chanLog (PushToUser st uid o).1.chans s.payloadDuct ++ qs := this
          _ = chanLog st.chans s.payloadDuct ++ [q] ++ qs := by rw [h1, h2]
          _ = chanLog st.chans s.payloadDuct ++ (q :: qs) := by simp

/-- Witness for C4 at concrete states: an offline user is a nil no-op even
for an object whose build fails; one push appends one payload; two
sequential pushes for a one-session user append both payloads in order. -/
theorem pushToUser_fanout_witness :
    PushToUser ⟨[], []⟩ "100" ⟨.error .ErrInternal⟩ = (⟨[], []⟩, none)
    ∧ chanLog (PushToUser ⟨[("100", [("100:s1", ⟨7, 0⟩)])], []⟩ "100"
        ⟨.ok ⟨"k", "UPSERT", "t:1", "a"⟩⟩).1.chans 7 = [⟨"k", "UPSERT", "t:1", "a"⟩]
    ∧ chanLog (pushSeq ⟨[("100", [("100:s1", ⟨7, 0⟩)])], []⟩ "100"
        [⟨.ok ⟨"k", "UPSERT", "t:1", "a"⟩⟩, ⟨.ok ⟨"k", "UPSERT", "t:1", "b"⟩⟩]).chans 7
      = [⟨"k", "UPSERT", "t:1", "a"⟩, ⟨"k", "UPSERT", "t:1", "b"⟩] := by
  refine ⟨?_, ?_, ?_⟩
  · exact (pushToUser_fanout ⟨[], []⟩ "100" ⟨.error .ErrInternal⟩).1 rfl
  · have := (pushToUser_fanout ⟨[("100", [("100:s1", ⟨7, 0⟩)])], []⟩ "100"
      ⟨.ok ⟨"k", "UPSERT", "t:1", "a"⟩⟩).2.1 [("100:s1", ⟨7, 0⟩)] ⟨"k", "UPSERT", "t:1", "a"⟩
      (by decide) rfl (by decide) "100:s1" ⟨7, 0⟩ (by decide)
    exact this.trans rfl
  · have := (pushToUser_fanout ⟨[("100", [("100:s1", ⟨7, 0⟩)])], []⟩ "100"
      ⟨.ok ⟨"k", "UPSERT", "t:1", "a"⟩⟩).2.2 "100:s1" ⟨7, 0⟩ (by decide)
      [⟨.ok ⟨"k", "UPSERT", "t:1", "a"⟩⟩, ⟨.ok ⟨"k", "UPSERT", "t:1", "b"⟩⟩]
      [⟨"k", "UPSERT", "t:1", "a"⟩, ⟨"k", "UPSERT", "t:1", "b"⟩] rfl
    exact this.trans rfl

/-! ## Claim C8 -/

/-- **C8**: a SUBSCRIBE command processed by a Topic Worker adds the
SessionKey mapped to the session resolved through the Session Registry;
when the lookup fails the subscribe is dropped and the topic (in
particular its subscriber set) is left entirely unchanged. -/
theorem topic_subscribe_resolution (users : Users) (t : Topic) (uri uid sid : String) :
    (∀ s, lookupSession users uid sid = some s →
      applyWorkerCmd users t ⟨.SUBSCRIBE, uri, uid, sid⟩
          = { t with subscribers := insertA t.subscribers (sessionKeyOf uid sid) s }
        ∧ lookupA (applyWorkerCmd users t ⟨.SUBSCRIBE, uri, uid, sid⟩).subscribers
            (sessionKeyOf uid sid) = some s)
    ∧ (lookupSession users uid sid = none →
        applyWorkerCmd users t ⟨.SUBSCRIBE, uri, uid, sid⟩ = t) := by
  constructor
  · intro s hs
    refine ⟨by simp [applyWorkerCmd, hs], ?_⟩
    simp [applyWorkerCmd, hs, lookupA_insertA_self]
  · intro hs
    simp [applyWorkerCmd, hs]

/-- Witness for C8: a resolvable subscribe lands in the subscriber set; an
unresolvable one leaves the topic unchanged. -/
theorem topic_subscribe_resolution_witness :
    lookupA (applyWorkerCmd [("u2", [("u2:s2", ⟨9, 0⟩)])] ⟨0, [], [], []⟩
        ⟨.SUBSCRIBE, "t:2", "u2", "s2"⟩).subscribers (sessionKeyOf "u2" "s2") = some ⟨9, 0⟩
    ∧ applyWorkerCmd [] ⟨0, [], [], []⟩ ⟨.SUBSCRIBE, "t:2", "u2", "s2"⟩ = ⟨0, [], [], []⟩ := by
  refine ⟨?_, ?_⟩
  · exact ((topic_subscribe_resolution [("u2", [("u2:s2", ⟨9, 0⟩)])] ⟨0, [], [], []⟩
      "t:2" "u2" "s2").1 ⟨9, 0⟩ (by decide)).2
  · exact (topic_subscribe_resolution [] ⟨0, [], [], []⟩ "t:2" "u2" "s2").2 rfl

/-! ## Topic-manager invariant machinery (C6, C10) -/

theorem eraseA_sublist {α β : Type} [DecidableEq α] (l : List (α × β)) (a : α) :
    (eraseA l a).Sublist l := by
  induction l with
  | nil => simp [eraseA]
  | cons p rest ih =>
    obtain ⟨k, v⟩ := p
    by_cases hka : k = a
    · simp only [eraseA, if_pos hka]
      exact ih.cons _
    · simp only [eraseA, if_neg hka]
      exact ih.cons₂ _

theorem not_mem_keys_eraseA {α β : Type} [DecidableEq α] (l : List (α × β)) (a : α) :
    a ∉ (eraseA l a).map Prod.fst := by
  induction l with
  | nil => simp [eraseA]
  | cons p rest ih =>
    obtain ⟨k, v⟩ := p
    by_cases hka : k = a
    · simpa [eraseA, if_pos hka] using ih
    · simp only [eraseA, if_neg hka, List.map_cons, List.mem_cons]
      push_neg
      exact ⟨fun h => hka h.symm, ih⟩

theorem map_val_updateA {α β γ : Type} [DecidableEq α] (l : List (α × β)) (a : α)
    (f : β → β) (g : β → γ) (hf : ∀ v, g (f v) = g v) :
    (updateA l a f).map (fun p => g p.2) = l.map (fun p => g p.2) := by
  induction l with
  | nil => simp [updateA]
  | cons p rest ih =>
    obtain ⟨k, v⟩ := p
    by_cases hka : k = a <;> simp [updateA, hka, hf, ih]

theorem map_fst_updateA {α β : Type} [DecidableEq α] (l : List (α × β)) (a : α)
    (f : β → β) : (updateA l a f).map Prod.fst = l.map Prod.fst := by
  induction l with
  | nil => simp [updateA]
  | cons p rest ih =>
    obtain ⟨k, v⟩ := p
    by_cases hka : k = a <;> simp [updateA, hka, ih]

/-- The per-topic transformations a manager command applies preserve
worker identities. -/
theorem applyWorkerCmd_tid (users : Users) (t : Topic) (tc : TopicCmd) :
    (applyWorkerCmd users t tc).tid = t.tid := by
  cases tc with
  | mk cmd uri uid sid =>
    cases cmd with
    | SUBSCRIBE =>
      simp only [applyWorkerCmd]
      cases lookupSession users uid sid <;> rfl
    | UNSUBSCRIBE => rfl
    | CLEAR => rfl
    | STOP => rfl

/-- The topic directory's tid column is unchanged by a CLEAR command's
fold of per-topic forwards. -/
theorem map_val_foldl_updateA {α β γ : Type} [DecidableEq α] (uris : List α)
    (l : List (α × β)) (f : β → β) (g : β → γ) (hf : ∀ v, g (f v) = g v) :
    ((uris.foldl (fun ts uri => updateA ts uri f) l).map (fun p => g p.2))
      = l.map (fun p => g p.2) := by
  induction uris generalizing l with
  | nil => rfl
  | cons u rest ih => simpa using (ih (updateA l u f)).trans (map_val_updateA l u f g hf)

theorem map_fst_foldl_updateA {α β : Type} [DecidableEq α] (uris : List α)
    (l : List (α × β)) (f : β → β) :
    ((uris.foldl (fun ts uri => updateA ts uri f) l).map Prod.fst) = l.map Prod.fst := by
  induction uris generalizing l with
  | nil => rfl
  | cons u rest ih => simpa using (ih (updateA l u f)).trans (map_fst_updateA l u f)

theorem forall_val_of_map_eq {α β γ : Type} {l l' : List (α × β)} {g : β → γ}
    (P : γ → Prop)
    (heq : l'.map (fun p => g p.2) = l.map (fun p => g p.2))
    (h : ∀ p ∈ l, P (g p.2)) : ∀ p ∈ l', P (g p.2) := by
  intro p hp
  have hm : g p.2 ∈ l'.map (fun p => g p.2) := List.mem_map_of_mem _ hp
  rw [heq] at hm
  obtain ⟨q, hq, hgq⟩ := List.mem_map.mp hm
  exact hgq ▸ h q hq

/-- Replacing the topic directory by one with the same tid and key columns,
and the subscription index by one with no empty entry, preserves the
invariant. -/
theorem tmInv_congr (st : TopicsState) (topics' : List (String × Topic))
    (subs' : List (SessionKey × List String))
    (htid : topics'.map (fun p => p.2.tid) = st.topics.map (fun p => p.2.tid))
    (hfst : topics'.map Prod.fst = st.topics.map Prod.fst)
    (hsubs : ∀ q ∈ subs', q.2 ≠ [])
    (h : TMInv st) :
    TMInv { st with topics := topics', subscriptions := subs' } := by
  obtain ⟨h1, h2, h3, h4, h5, h6⟩ := h
  refine ⟨forall_val_of_map_eq (fun i => i < st.nextId) htid h1, ?_, ?_, h4,
    forall_val_of_map_eq (fun i => i ∉ st.stopSent) htid h5, hsubs⟩
  · show (topics'.map (fun p => p.2.tid)).Nodup
    rw [htid]; exact h2
  · show (topics'.map Prod.fst).Nodup
    rw [hfst]; exact h3

theorem tmInv_init : TMInv initTopics := by
  refine ⟨?_, ?_, ?_, ?_, ?_, ?_⟩ <;> simp [initTopics]

theorem tmInv_cmd (st : TopicsState) (tc : TopicCmd) (h : TMInv st) :
    TMInv (applyTopicMgrCmd st tc) := by
  obtain ⟨cmd, uri, uid, sid⟩ := tc
  cases cmd with
  | SUBSCRIBE =>
    have hsubs : ∀ q ∈ insertA st.subscriptions (sessionKeyOf uid sid)
        (if uri ∈ (lookupA st.subscriptions (sessionKeyOf uid sid)).getD []
         then (lookupA st.subscriptions (sessionKeyOf uid sid)).getD []
         else uri :: (lookupA st.subscriptions (sessionKeyOf uid sid)).getD []),
        q.2 ≠ [] := by
      intro q hq
      rcases mem_insertA hq with hq | hq
      · subst hq
        by_cases hmem : uri ∈ (lookupA st.subscriptions (sessionKeyOf uid sid)).getD []
        · simpa [hmem] using List.ne_nil_of_mem hmem
        · simp [hmem]
      · exact h.2.2.2.2.2 q hq
    cases hl : lookupA st.topics uri with
    | some t =>
      simp only [applyTopicMgrCmd, hl]
      exact tmInv_congr st _ _
        (map_val_updateA st.topics uri _ Topic.tid (fun v => rfl))
        (map_fst_updateA st.topics uri _) hsubs h
    | none =>
      obtain ⟨h1, h2, h3, h4, h5, h6⟩ := h
      simp only [applyTopicMgrCmd, hl]
      refine ⟨?_, ?_, ?_, ?_, ?_, ?_⟩
      · intro p hp
        rcases mem_insertA hp with hp | hp
        · subst hp; exact Nat.lt_succ_self _
        · exact Nat.lt_succ_of_lt (h1 p hp)
      · show ((insertA st.topics uri ⟨st.nextId, [], [], _⟩).map (fun p => p.2.tid)).Nodup
        simp only [insertA, List.map_cons, List.nodup_cons]
        constructor
        · intro hmem
          obtain ⟨q, hq, hgq⟩ := List.mem_map.mp hmem
          exact absurd (hgq ▸ h1 q (mem_eraseA hq)) (Nat.lt_irrefl _)
        · exact List.Nodup.sublist ((eraseA_sublist st.topics uri).map _) h2
      · show ((insertA st.topics uri ⟨st.nextId, [], [], _⟩).map Prod.fst).Nodup
        simp only [insertA, List.map_cons, List.nodup_cons]
        exact ⟨not_mem_keys_eraseA st.topics uri,
          List.Nodup.sublist ((eraseA_sublist st.topics uri).map _) h3⟩
      · intro i hi
        exact Nat.lt_succ_of_lt (h4 i hi)
      · intro p hp
        rcases mem_insertA hp with hp | hp
        · subst hp
          intro hmem
          exact absurd (h4 _ hmem) (Nat.lt_irrefl _)
        · exact h5 p hp
      · exact hsubs
  | UNSUBSCRIBE =>
    simp only [applyTopicMgrCmd]
    refine tmInv_congr st _ _
      (map_val_updateA st.topics uri _ Topic.tid (fun v => rfl))
      (map_fst_updateA st.topics uri _) ?_ h
    cases hls : lookupA st.subscriptions (sessionKeyOf uid sid) with
    | none => exact h.2.2.2.2.2
    | some subs =>
      by_cases hz : (subs.filter (fun u => u ≠ uri)).length = 0
      · simp only [if_pos hz]
        intro q hq
        exact h.2.2.2.2.2 q (mem_eraseA hq)
      · simp only [if_neg hz]
        intro q hq
        rcases mem_insertA hq with hq | hq
        · subst hq
          intro hnil
          have hfil : (subs.filter (fun u => u ≠ uri)) = [] := hnil
          exact hz (by rw [hfil]; rfl)
        · exact h.2.2.2.2.2 q hq
  | CLEAR =>
    simp only [applyTopicMgrCmd]
    refine tmInv_congr st _ _
      (map_val_foldl_updateA _ st.topics _ Topic.tid (fun v => rfl))
      (map_fst_foldl_updateA _ st.topics _) ?_ h
    intro q hq
    exact h.2.2.2.2.2 q (mem_eraseA hq)
  | STOP => exact h

theorem tmInv_worker (st : TopicsState) (users : Users) (uri : String) (h : TMInv st) :
    TMInv (workerStepF users st uri) := by
  have hf : ∀ v : Topic,
      (match v.cmdDuct with
        | [] => v
        | tc :: rest => applyWorkerCmd users { v with cmdDuct := rest } tc).tid = v.tid := by
    intro v
    obtain ⟨tid, subs, pd, cd⟩ := v
    cases cd with
    | nil => rfl
    | cons tc rest => exact applyWorkerCmd_tid users _ tc
  exact tmInv_congr st _ _
    (map_val_updateA st.topics uri _ Topic.tid hf)
    (map_fst_updateA st.topics uri _) h.2.2.2.2.2 h

theorem tmInv_egress (st : TopicsState) (casMode : Bool) (p : Payload) (h : TMInv st) :
    TMInv (processEgress casMode st p) := by
  cases casMode with
  | false => exact h
  | true =>
    simp only [processEgress, if_pos]
    exact tmInv_congr st _ _
      (map_val_updateA st.topics p.uri _ Topic.tid (fun v => rfl))
      (map_fst_updateA st.topics p.uri _) h.2.2.2.2.2 h

theorem tmInv_cleanup (st : TopicsState) (h : TMInv st) : TMInv (cleanupF st) := by
  obtain ⟨h1, h2, h3, h4, h5, h6⟩ := h
  have hsub : (st.topics.filter (fun ut => !ut.2.subscribers.isEmpty)).Sublist st.topics :=
    List.filter_sublist st.topics
  refine ⟨?_, ?_, ?_, ?_, ?_, h6⟩
  · intro p hp
    exact h1 p (hsub.mem hp)
  · exact List.Nodup.sublist (hsub.map _) h2
  · exact List.Nodup.sublist (hsub.map _) h3
  · intro i hi
    rcases List.mem_append.mp hi with hi | hi
    · exact h4 i hi
    · obtain ⟨q, hq, hgq⟩ := List.mem_map.mp hi
      exact hgq ▸ h1 q (List.mem_of_mem_filter hq)
  · intro p hp hmem
    rcases List.mem_append.mp hmem with hmem | hmem
    · exact h5 p (hsub.mem hp) hmem
    · obtain ⟨q, hq, hgq⟩ := List.mem_map.mp hmem
      have hpq : q = p :=
        List.inj_on_of_nodup_map h2 (List.mem_of_mem_filter hq) (hsub.mem hp) hgq
      have hpkeep : ¬ p.2.subscribers.isEmpty := by
        simpa using List.of_mem_filter hp
      have hqstop : q.2.subscribers.isEmpty := by
        simpa using List.of_mem_filter hq
      rw [hpq] at hqstop
      exact hpkeep hqstop

theorem tmInv_of_reachable {st : TopicsState} (h : TMReachable st) : TMInv st := by
  induction h with
  | init => exact tmInv_init
  | step hr hs ih =>
    cases hs with
    | cmd tc => exact tmInv_cmd _ tc ih
    | worker users uri => exact tmInv_worker _ users uri ih
    | cleanup => exact tmInv_cleanup _ ih
    | egress casMode p => exact tmInv_egress _ casMode p ih

theorem lookupA_eq_none_iff {α β : Type} [DecidableEq α] (l : List (α × β)) (a : α) :
    lookupA l a = none ↔ ∀ b : β, (a, b) ∉ l := by
  induction l with
  | nil => simp [lookupA]
  | cons p rest ih =>
    obtain ⟨k, v⟩ := p
    by_cases hka : k = a
    · subst hka
      simp only [lookupA, if_pos rfl]
      constructor
      · intro hcontra
        exact absurd hcontra (by simp)
      · intro hall
        exact absurd (List.mem_cons_self (k, v) rest) (hall v)
    · have hak : a ≠ k := fun hh => hka hh.symm
      simp only [lookupA, if_neg hka, List.mem_cons]
      rw [ih]
      constructor
      · intro hall b hb
        rcases hb with hb | hb
        · exact hak (congrArg Prod.fst hb)
        · exact hall b hb
      · intro hall b hb
        exact hall b (Or.inr hb)

theorem isSome_lookupA_updateA {α β : Type} [DecidableEq α] (l : List (α × β)) (a b : α)
    (f : β → β) :
    (lookupA (updateA l a f) b).isSome = (lookupA l b).isSome := by
  rw [lookupA_updateA]
  by_cases hab : a = b
  · simp only [if_pos hab]
    cases lookupA l b <;> rfl
  · simp [if_neg hab]

theorem isSome_lookupA_foldl_updateA {α β : Type} [DecidableEq α] (uris : List α)
    (l : List (α × β)) (f : β → β) (b : α) :
    (lookupA (uris.foldl (fun ts u => updateA ts u f) l) b).isSome
      = (lookupA l b).isSome := by
  induction uris generalizing l with
  | nil => rfl
  | cons u rest ih => simpa using (ih (updateA l u f)).trans (isSome_lookupA_updateA l u b f)

/-! ## Claim C6 -/

/-- **C6**: during a periodic cleanup scan a topic is sent STOP iff its
subscriber set is observed empty; the scan appends exactly those workers
to the STOP record and removes every such topic from the directory within
the same scan; no other transition (manager command, worker step, CAS
egress) removes a directory entry; and in every reachable state no topic
that has been sent STOP is still present in the directory. -/
theorem topic_cleanup_lifecycle (st : TopicsState) (h : TMReachable st) :
    (∀ uri t, (uri, t) ∈ st.topics → (t.tid ∈ newlyStopped st ↔ t.subscribers = []))
    ∧ (cleanupF st).stopSent = st.stopSent ++ newlyStopped st
    ∧ (∀ uri t, (uri, t) ∈ st.topics → t.subscribers = [] →
        lookupA (cleanupF st).topics uri = none)
    ∧ (∀ tc uri, (lookupA st.topics uri).isSome = true →
        (lookupA (applyTopicMgrCmd st tc).topics uri).isSome = true)
    ∧ (∀ users wuri uri, (lookupA (workerStepF users st wuri).topics uri).isSome
        = (lookupA st.topics uri).isSome)
    ∧ (∀ casMode p uri, (lookupA (processEgress casMode st p).topics uri).isSome
        = (lookupA st.topics uri).isSome)
    ∧ (∀ uri t, (uri, t) ∈ st.topics → t.tid ∉ st.stopSent) := by
  obtain ⟨h1, h2, h3, h4, h5, h6⟩ := tmInv_of_reachable h
  refine ⟨?_, rfl, ?_, ?_, ?_, ?_, ?_⟩
  · intro uri t hmem
    constructor
    · intro hstop
      obtain ⟨q, hq, hgq⟩ := List.mem_map.mp hstop
      have hql := List.mem_filter.mp hq
      have hqt : q = (uri, t) := List.inj_on_of_nodup_map h2 hql.1 hmem hgq
      rw [hqt] at hql
      simpa using hql.2
    · intro he
      exact List.mem_map.mpr ⟨(uri, t), List.mem_filter.mpr ⟨hmem, by simp [he]⟩, rfl⟩
  · intro uri t hmem he
    show lookupA (st.topics.filter (fun ut => !ut.2.subscribers.isEmpty)) uri = none
    rw [lookupA_eq_none_iff]
    intro b hb
    have hbl := List.mem_filter.mp hb
    have hbt : (uri, b) = (uri, t) :=
      List.inj_on_of_nodup_map h3 hbl.1 hmem rfl
    have hbt' : b = t := congrArg Prod.snd hbt
    rw [hbt'] at hbl
    simp [he] at hbl
  · intro tc uri' hsome
    obtain ⟨cmd, curi, cuid, csid⟩ := tc
    cases cmd with
    | SUBSCRIBE =>
      cases hl : lookupA st.topics curi with
      | some t =>
        simp only [applyTopicMgrCmd, hl]
        show (lookupA (updateA st.topics curi _) uri').isSome = true
        rw [isSome_lookupA_updateA]
        exact hsome
      | none =>
        simp only [applyTopicMgrCmd, hl]
        show (lookupA (insertA st.topics curi _) uri').isSome = true
        by_cases he : curi = uri'
        · subst he
          rw [lookupA_insertA_self]
          rfl
        · rw [lookupA_insertA_ne _ _ _ _ he]
          exact hsome
    | UNSUBSCRIBE =>
      show (lookupA (updateA st.topics curi _) uri').isSome = true
      rw [isSome_lookupA_updateA]
      exact hsome
    | CLEAR =>
      show (lookupA (List.foldl _ st.topics _) uri').isSome = true
      rw [isSome_lookupA_foldl_updateA]
      exact hsome
    | STOP => exact hsome
  · intro users wuri uri
    exact isSome_lookupA_updateA st.topics wuri uri _
  · intro casMode p uri
    cases casMode with
    | false => rfl
    | true => exact isSome_lookupA_updateA st.topics p.uri uri _
  · intro uri t hmem
    exact h5 (uri, t) hmem

/-- Witness for C6: after one SUBSCRIBE to a fresh topic (a reachable
state), the new worker has an empty subscriber set (its SUBSCRIBE is still
queued), so the next scan sends it STOP and removes it from the
directory. -/
theorem topic_cleanup_lifecycle_witness :
    (0 : Nat) ∈ newlyStopped (applyTopicMgrCmd initTopics ⟨.SUBSCRIBE, "w:1", "u", "s"⟩)
    ∧ lookupA (cleanupF (applyTopicMgrCmd initTopics ⟨.SUBSCRIBE, "w:1", "u", "s"⟩)).topics
        "w:1" = none := by
  have hr : TMReachable (applyTopicMgrCmd initTopics ⟨.SUBSCRIBE, "w:1", "u", "s"⟩) :=
    TMReachable.step TMReachable.init (TMStep.cmd initTopics ⟨.SUBSCRIBE, "w:1", "u", "s"⟩)
  have h := topic_cleanup_lifecycle _ hr
  refine ⟨?_, ?_⟩
  · exact (h.1 "w:1" ⟨0, [], [], [⟨.SUBSCRIBE, "w:1", "u", "s"⟩]⟩ (by decide)).mpr rfl
  · exact h.2.2.1 "w:1" ⟨0, [], [], [⟨.SUBSCRIBE, "w:1", "u", "s"⟩]⟩ (by decide) rfl

/-! ## Claim C10 -/

/-- **C10**: in every reachable state the subscription index maps no
SessionKey to an empty topic set; a CLEAR deletes the session's index
entry outright, and an UNSUBSCRIBE that removes the session's last topic
URI deletes the index entry as well. -/
theorem subscription_index_no_empty_entry (st : TopicsState) (h : TMReachable st) :
    (∀ q ∈ st.subscriptions, q.2 ≠ [])
    ∧ (∀ uri uid sid,
        lookupA (applyTopicMgrCmd st ⟨.CLEAR, uri, uid, sid⟩).subscriptions
          (sessionKeyOf uid sid) = none)
    ∧ (∀ uri uid sid subs,
        lookupA st.subscriptions (sessionKeyOf uid sid) = some subs →
        subs.filter (fun u => u ≠ uri) = [] →
        lookupA (applyTopicMgrCmd st ⟨.UNSUBSCRIBE, uri, uid, sid⟩).subscriptions
          (sessionKeyOf uid sid) = none) := by
  refine ⟨(tmInv_of_reachable h).2.2.2.2.2, ?_, ?_⟩
  · intro uri uid sid
    show lookupA (eraseA st.subscriptions (sessionKeyOf uid sid)) (sessionKeyOf uid sid) = none
    exact lookupA_eraseA_self _ _
  · intro uri uid sid subs hls hfil
    have hz : (subs.filter (fun u => u ≠ uri)).length = 0 := by rw [hfil]; rfl
    simp only [applyTopicMgrCmd, hls, if_pos hz]
    exact lookupA_eraseA_self _ _

/-- Witness for C10: the reachable state after one SUBSCRIBE has a
non-empty index entry, and a CLEAR for that session removes it. -/
theorem subscription_index_no_empty_entry_witness :
    (sessionKeyOf "v" "w", ["x:1"])
        ∈ (applyTopicMgrCmd initTopics ⟨.SUBSCRIBE, "x:1", "v", "w"⟩).subscriptions
    ∧ (["x:1"] : List String) ≠ []
    ∧ lookupA (applyTopicMgrCmd (applyTopicMgrCmd initTopics ⟨.SUBSCRIBE, "x:1", "v", "w"⟩)
          ⟨.CLEAR, "", "v", "w"⟩).subscriptions (sessionKeyOf "v" "w") = none := by
  have hr : TMReachable (applyTopicMgrCmd initTopics ⟨.SUBSCRIBE, "x:1", "v", "w"⟩) :=
    TMReachable.step TMReachable.init (TMStep.cmd initTopics ⟨.SUBSCRIBE, "x:1", "v", "w"⟩)
  have h := subscription_index_no_empty_entry _ hr
  refine ⟨by decide, ?_, ?_⟩
  · exact h.1 (sessionKeyOf "v" "w", ["x:1"]) (by decide)
  · exact h.2.1 "" "v" "w"

/-! ## Claim C5 -/

/-- C5 counterexample: with the broker disabled but CAS mode off, a
publish whose payload names an existing directory topic delivers nothing —
the whole state (in particular the topic's empty payload duct) is
unchanged and the result is nil — contradicting the claim that a disabled
broker makes `Publish` deliver to the local Topic Worker whenever that
topic exists. -/
theorem publish_broker_disabled_counterexample :
    Publish false true ⟨[("t:5", ⟨0, [], [], []⟩)], [], [], 1⟩ []
        ⟨.ok ⟨"k", "UPSERT", "t:5", "d"⟩⟩
      = (⟨[("t:5", ⟨0, [], [], []⟩)], [], [], 1⟩, [], none)
    ∧ lookupA (⟨[("t:5", ⟨0, [], [], []⟩)], [], [], 1⟩ : TopicsState).topics "t:5"
      = some ⟨0, [], [], []⟩ :=
  ⟨rfl, by decide⟩

/-- **C5 (amended)**: when the broker is disabled no broker interaction
occurs, and local delivery additionally requires CAS mode: with CAS mode
on, the built payload is appended to the payload duct of the topic at its
URI when that topic exists and the publish is a silent nil no-op when it
does not; with CAS mode off, `Publish` is a silent nil no-op regardless of
the directory. -/
theorem publish_broker_disabled_behavior (casMode : Bool) (st : TopicsState)
    (broker : List Payload) (obj : Pushable) :
    (Publish casMode true st broker obj).2.1 = broker
    ∧ (∀ e, obj.buildPushPayload = .error e →
        Publish casMode true st broker obj = (st, broker, some e))
    ∧ (∀ p, obj.buildPushPayload = .ok p →
        (casMode = false → Publish casMode true st broker obj = (st, broker, none))
        ∧ (casMode = true → ∀ t, lookupA st.topics p.uri = some t →
            lookupA (Publish casMode true st broker obj).1.topics p.uri
                = some { t with payloadDuct := t.payloadDuct ++ [p] }
              ∧ (Publish casMode true st broker obj).2.2 = none)
        ∧ (casMode = true → lookupA st.topics p.uri = none →
            Publish casMode true st broker obj = (st, broker, none))) := by
  refine ⟨?_, ?_, ?_⟩
  · cases hb : obj.buildPushPayload with
    | error e => simp only [Publish, hb]
    | ok p =>
      simp only [Publish, hb]
      rfl
  · intro e hb
    simp only [Publish, hb]
  · intro p hb
    refine ⟨?_, ?_, ?_⟩
    · intro hc
      subst hc
      simp only [Publish, hb]
      rfl
    · intro hc t hl
      subst hc
      constructor
      · have hpub : (Publish true true st broker obj).1 = processEgress true st p := by
          simp [Publish, hb]
        rw [hpub]
        show lookupA (updateA st.topics p.uri
            (fun t => { t with payloadDuct := t.payloadDuct ++ [p] })) p.uri = _
        rw [lookupA_updateA, if_pos rfl, hl]
        rfl
      · simp only [Publish, hb]
        rfl
    · intro hc hl
      subst hc
      simp only [Publish, hb]
      simp [processEgress, updateA_of_lookupA_none _ hl]

/-- Witness for the amended C5: a failed build returns its error with the
state and broker log untouched; with CAS mode on a successful publish
lands on the topic's duct; with CAS mode off the same publish changes
nothing. -/
theorem publish_broker_disabled_witness :
    Publish true true ⟨[("t:6", ⟨0, [], [], []⟩)], [], [], 1⟩ []
        ⟨.error .ErrInternal⟩
      = (⟨[("t:6", ⟨0, [], [], []⟩)], [], [], 1⟩, [], some .ErrInternal)
    ∧ lookupA (Publish true true ⟨[("t:6", ⟨0, [], [], []⟩)], [], [], 1⟩ []
        ⟨.ok ⟨"k", "UPSERT", "t:6", "d"⟩⟩).1.topics "t:6"
      = some ⟨0, [], [⟨"k", "UPSERT", "t:6", "d"⟩], []⟩
    ∧ Publish false true ⟨[("t:6", ⟨0, [], [], []⟩)], [], [], 1⟩ []
        ⟨.ok ⟨"k", "UPSERT", "t:6", "d"⟩⟩
      = (⟨[("t:6", ⟨0, [], [], []⟩)], [], [], 1⟩, [], none) := by
  have h0 := publish_broker_disabled_behavior true ⟨[("t:6", ⟨0, [], [], []⟩)], [], [], 1⟩ []
    ⟨.error .ErrInternal⟩
  have h1 := publish_broker_disabled_behavior true ⟨[("t:6", ⟨0, [], [], []⟩)], [], [], 1⟩ []
    ⟨.ok ⟨"k", "UPSERT", "t:6", "d"⟩⟩
  have h2 := publish_broker_disabled_behavior false ⟨[("t:6", ⟨0, [], [], []⟩)], [], [], 1⟩ []
    ⟨.ok ⟨"k", "UPSERT", "t:6", "d"⟩⟩
  refine ⟨h0.2.1 .ErrInternal rfl, ?_, ?_⟩
  · exact ((h1.2.2 ⟨"k", "UPSERT", "t:6", "d"⟩ rfl).2.1 rfl ⟨0, [], [], []⟩ (by decide)).1
  · exact (h2.2.2 ⟨"k", "UPSERT", "t:6", "d"⟩ rfl).1 rfl

/-! ## Claim C1 -/

/-- **C1** (code bug): `RestExec` arms its response ticker with
`time.NewTicker(ResponseTimeout * time.Second)`. `ResponseTimeout` is
already a `time.Duration` of five seconds (5e9 ns), so the ticker period
is 5e18 ns — about 158 years — and not the configured five-second
response-timeout window: against a peer that never responds, the timeout
error the spec requires after `ResponseTimeout` is not produced until the
oversized period elapses. -/
theorem restExec_ticker_period_bug :
    restExecTickerPeriod = 5000000000000000000
    ∧ ResponseTimeout = 5000000000
    ∧ restExecTickerPeriod = 1000000000 * ResponseTimeout
    ∧ restExecTickerPeriod ≠ ResponseTimeout := by
  refine ⟨?_, ?_, ?_, ?_⟩ <;>
    norm_num [restExecTickerPeriod, ResponseTimeout, timeSecond]

/-! ## Claim C2 -/

/-- C2 counterexample: on a JSON decode failure the server's request loop
writes the single error envelope but then breaks — the connection is torn
down and a following well-formed message is never processed — refuting
the claim that the loop continues reading subsequent messages. -/
theorem api_decode_failure_counterexample :
    apiLoopStep .decodeFailure = ([.errorEnvelope .ErrJsonDecode], false)
    ∧ apiLoop [.decodeFailure, .msg true true] = [.errorEnvelope .ErrJsonDecode]
    ∧ ApiWrite.handlerInvoked ∉ apiLoop [.decodeFailure, .msg true true] := by
  refine ⟨rfl, rfl, by decide⟩

/-- **C2 (amended)**: a decode failure that is not a transport EOF or a
read-deadline timeout writes exactly one error envelope back and then
terminates the request loop (connection teardown); it is the post-decode
validation failures — invalid URI, handler not found — that write one
error envelope and leave the loop reading subsequent messages, while EOF
and timeout terminate it without writing anything. -/
theorem api_decode_failure_behavior :
    apiLoopStep .decodeFailure = ([.errorEnvelope .ErrJsonDecode], false)
    ∧ (∀ rest, apiLoop (.decodeFailure :: rest) = [.errorEnvelope .ErrJsonDecode])
    ∧ (∀ hf rest, apiLoop (.msg false hf :: rest)
        = .errorEnvelope .ErrInvalidMethod :: apiLoop rest)
    ∧ (∀ rest, apiLoop (.msg true false :: rest)
        = .errorEnvelope .ErrInvalidMethod :: apiLoop rest)
    ∧ (∀ rest, apiLoop (.msg true true :: rest) = .handlerInvoked :: apiLoop rest)
    ∧ apiLoopStep .eof = ([], false)
    ∧ apiLoopStep .timeout = ([], false) := by
  refine ⟨rfl, fun rest => rfl, fun hf rest => ?_, fun rest => rfl, fun rest => rfl, rfl, rfl⟩
  cases hf <;> rfl

/-! ## Claim C9 -/

/-- **C9**: a received response whose Error field is non-empty makes
`RestExec` return the internal-error result without the requestID
comparison ever happening: the result is `ErrInternal` for every pair of
request and response Rids, matching or not. -/
theorem restExec_error_response_bypasses_rid (reqRid : String) (resp : Envelope)
    (w d : Bool) (hm : resp.method.length ≠ 0) (he : resp.error.isSome = true) :
    restExecRecv reqRid resp w d = .err .ErrInternal := by
  simp [restExecRecv, hm, he]

/-- Witness for C9: an error response carrying a Rid different from the
pending request's is still reported as `ErrInternal`. -/
theorem restExec_error_response_bypasses_rid_witness :
    restExecRecv "r1" ⟨"r2", 0, "GET", "/x", false, none, some "boom"⟩ false false
      = .err .ErrInternal
    ∧ ("r1" : String) ≠ "r2" :=
  ⟨restExec_error_response_bypasses_rid "r1" ⟨"r2", 0, "GET", "/x", false, none, some "boom"⟩
      false false (by decide) rfl,
    by decide⟩

/-! ## Claim C7 -/

/-- C7 counterexample: a response envelope with a mismatched Rid but a
non-empty Error field is answered with `ErrInternal`, not a
not-found-class error — the claim fails for error responses, whose
processing returns before the Rid comparison. -/
theorem restExec_rid_mismatch_counterexample :
    restExecRecv "a1" ⟨"b2", 7, "POST", "/z", false, none, some "oops"⟩ true true
      = .err .ErrInternal
    ∧ RestResult.err .ErrInternal ≠ .err .ErrNotFound := by
  exact ⟨rfl, by decide⟩

/-- **C7 (amended)**: for every received response envelope that is not an
error response (empty Error field) and is a real response (non-empty
Method, i.e. not the read-loop's failure marker), a Rid differing from the
request's yields the not-found-class error `ErrNotFound` rather than being
silently accepted. -/
theorem restExec_rid_mismatch_not_found (reqRid : String) (resp : Envelope)
    (w d : Bool) (hm : resp.method.length ≠ 0) (he : resp.error = none)
    (hr : reqRid ≠ resp.rid) :
    restExecRecv reqRid resp w d = .err .ErrNotFound := by
  simp [restExecRecv, hm, he, hr]

/-- Witness for the amended C7: a success response with the wrong Rid is
rejected with `ErrNotFound`. -/
theorem restExec_rid_mismatch_not_found_witness :
    restExecRecv "a1" ⟨"b2", 7, "GET", "/y", false, some "{}", none⟩ true true
      = .err .ErrNotFound :=
  restExec_rid_mismatch_not_found "a1" ⟨"b2", 7, "GET", "/y", false, some "{}", none⟩
    true true (by decide) rfl (by decide)

end Infra
